import Mathlib

/-!
Verification of the Managed Display Registry and Refresh Engine of the
loanickname Discord bot.  The engine keeps a durable registry of shared
board messages, discovers pre-existing boards via a content marker in the
first embed footer, idempotently creates-or-reuses a board per channel,
caches provider reads with a TTL, and runs sequential refresh passes with
per-item failure isolation.

The definitions below are a shallow embedding of the JavaScript source.
External platform effects (message fetch/send/edit, provider fetch, file
writes) are passed in explicitly as data or as oracle functions so that
every operation is a pure, executable Lean function that mirrors the
control flow of the source line by line.
-/

namespace LoaBot

/-- The sentinel marker string `BOARD_TAG` from the source. -/
def BOARD_TAG : String := "[LOA_BOARD]"

/-- The per-channel scan depth `SCAN_LIMIT_PER_CHANNEL` from the source. -/
def SCAN_LIMIT : Nat := 50

/-- JavaScript string truthiness: the empty string is falsy. -/
def truthy (s : String) : Bool := !s.data.isEmpty

/-- Does the character list start with the pattern list?
Models the leading-match test used by substring search. -/
def startsWith : List Char → List Char → Bool
  | [], _ => true
  | _ :: _, [] => false
  | p :: ps, x :: xs => decide (p = x) && startsWith ps xs

/-- Substring search over character lists: true when the pattern occurs
contiguously somewhere in the list. -/
def subListSearch (pat : List Char) : List Char → Bool
  | [] => startsWith pat []
  | l@(_ :: xs) => startsWith pat l || subListSearch pat xs

/-- Model of the JavaScript builtin `String.prototype.includes`. -/
def jsIncludes (s pat : String) : Bool := subListSearch pat.data s.data

/-- A Discord embed, reduced to the fields the engine inspects: the
description and the footer text. -/
structure Embed where
  description : String
  footerText : Option String
deriving DecidableEq

/-- A Discord message, reduced to the fields the engine inspects. -/
structure Message where
  id : String
  authorId : String
  embeds : List Embed
deriving DecidableEq

/-- A channel: its text-ness and its messages, newest first.  A fetch by
id looks the message up in `messages`; a window fetch of limit `n` takes
the first `n` entries. -/
structure Channel where
  isText : Bool
  messages : List Message
deriving DecidableEq

/-- One Target Registry entry, `{channelId, messageId}` from `boards`. -/
structure Board where
  channelId : String
  messageId : String
deriving DecidableEq

/-- `hasBoardMarker` from the source: the first embed must have a truthy
footer text that contains `BOARD_TAG`. -/
def hasBoardMarker (m : Message) : Bool :=
  match m.embeds.head? with
  | none => false
  | some e =>
    match e.footerText with
    | none => false
    | some t => truthy t && jsIncludes t BOARD_TAG

/-- Association-list lookup, modelling both `Map.get` and JavaScript
object property access keyed by strings. -/
def lookupAssoc {α : Type} : List (String × α) → String → Option α
  | [], _ => none
  | (k, v) :: rest, key => if k = key then some v else lookupAssoc rest key

/-- Association-list store, modelling both `Map.set` and JavaScript
object property assignment: replaces the first binding of the key, or
appends a new one. -/
def setAssoc {α : Type} : List (String × α) → String → α → List (String × α)
  | [], key, nv => [(key, nv)]
  | (k, v) :: rest, key, nv =>
    if k = key then (k, nv) :: rest else (k, v) :: setAssoc rest key nv

/-- The derived key of a registry entry: `boardsKey(c, m)` builds
`"c:m"`. -/
def boardsKey (c m : String) : String := c ++ ":" ++ m

/-- The Target Registry: the `boards` list together with the derived
`boardsSet` key index (a JavaScript `Set`, modelled as a `Finset`). -/
structure Registry where
  boards : List Board
  boardsSet : Finset String
deriving DecidableEq

/-- The registry state the process starts from when no persisted file is
present: empty list, and the key set derived from it. -/
def initRegistry : Registry := { boards := [], boardsSet := ∅ }

/-- `addBoard` from the source: skip when the key is already indexed,
otherwise push the entry and add its key to the index. -/
def addBoard (r : Registry) (channelId messageId : String) : Registry :=
  let key := boardsKey channelId messageId
  if key ∈ r.boardsSet then r
  else { boards := r.boards ++ [⟨channelId, messageId⟩],
         boardsSet := insert key r.boardsSet }

/-- The `/board-disable` handler: keep only the entries of other
channels and rebuild the key index from the filtered list. -/
def removeChannelBoards (r : Registry) (channelId : String) : Registry :=
  let bs := r.boards.filter (fun b => b.channelId ≠ channelId)
  { boards := bs, boardsSet := (bs.map (fun b => boardsKey b.channelId b.messageId)).toFinset }

/-- A registry mutation: every caller of `addBoard` (board-enable,
discoverBoards) performs an `add`; `/board-disable` performs a
`removeChannel`. -/
inductive RegOp where
  | add (channelId messageId : String)
  | removeChannel (channelId : String)

/-- Apply one registry operation. -/
def applyRegOp (r : Registry) : RegOp → Registry
  | .add c m => addBoard r c m
  | .removeChannel c => removeChannelBoards r c

/-- Apply a sequence of registry operations, oldest first. -/
def applyRegOps (ops : List RegOp) (r : Registry) : Registry :=
  ops.foldl applyRegOp r

/-- The keys of the registry entries, in list order. -/
def regKeys (r : Registry) : List String :=
  r.boards.map (fun b => boardsKey b.channelId b.messageId)

/-- The registry invariant: the entry keys are duplicate-free and the
`boardsSet` index is exactly the set of those keys. -/
def regInv (r : Registry) : Prop :=
  (regKeys r).Nodup ∧ r.boardsSet = (regKeys r).toFinset

/-- A personal pinned target reference `{channelId, messageId}` stored
on a Link record. -/
structure PTarget where
  channelId : String
  messageId : String
deriving DecidableEq

/-- A Link record `{ main, personal? }` from `links.json`: the linked
main character name and the optional personal pinned message. -/
structure LinkRec where
  main : Option String
  personal : Option PTarget
deriving DecidableEq

/-- The Identity Link Store: `links`, a JavaScript object keyed by user
id, modelled as an insertion-ordered association list. -/
def Links : Type := List (String × LinkRec)

/-- The `/unlink` handler: when the user has a truthy `main`, delete
only the `main` property of that user record and store it back;
otherwise the store is untouched (the handler only replies). -/
def unlinkUser (links : Links) (userId : String) : Links :=
  match lookupAssoc links userId with
  | none => links
  | some cur =>
    match cur.main with
    | none => links
    | some mn =>
      if truthy mn then setAssoc links userId { cur with main := none }
      else links

/-- One Upstream Cache entry `{ data, ts }`. -/
structure CacheEntry where
  data : String
  ts : Nat
deriving DecidableEq

/-- The cache TTL `TTL_MS` from the source: one minute. -/
def TTL_MS : Nat := 60 * 1000

/-- The miss path of `cachedGet`: perform the live fetch; on success
store `{data, now}` and return the payload, on failure propagate and
leave the cache untouched.  `fetch` is the outcome the external
`api.get` call would produce.  The returned Bool records whether an
external fetch was performed. -/
def cacheMiss (st : List (String × CacheEntry)) (now : Nat) (url : String)
    (fetch : Except String String) :
    Except String String × List (String × CacheEntry) × Bool :=
  match fetch with
  | .ok d => (.ok d, setAssoc st url ⟨d, now⟩, true)
  | .error e => (.error e, st, true)

/-- `cachedGet` from the source: on a non-forced call with a cache entry
younger than the TTL, return the stored payload without fetching;
otherwise take the miss path. -/
def cachedGet (st : List (String × CacheEntry)) (now : Nat) (url : String)
    (force : Bool) (fetch : Except String String) :
    Except String String × List (String × CacheEntry) × Bool :=
  match lookupAssoc st url with
  | some c =>
    if !force && decide (now - c.ts < TTL_MS) then (.ok c.data, st, false)
    else cacheMiss st now url fetch
  | none => cacheMiss st now url fetch

/-- Digits to a natural number, most significant first. -/
def digitsToNat (ds : List Char) : Nat :=
  ds.foldl (fun acc c => acc * 10 + (c.toNat - '0'.toNat)) 0

/-- Model of the JavaScript builtin `parseFloat` on the inputs the bot
feeds it (an optional sign, an integer part, an optional fractional
part; trailing non-numeric characters are ignored).  `none` stands for
NaN: no leading numeric prefix at all.  Exponent notation and leading
whitespace, which cannot occur in the comma-stripped level strings, are
not modelled. -/
def jsParseFloat (s : String) : Option ℚ :=
  let step1 : Bool × List Char :=
    match s.data with
    | '-' :: r => (true, r)
    | '+' :: r => (false, r)
    | cs => (false, cs)
  let d1 := step1.2.takeWhile Char.isDigit
  let rest := step1.2.dropWhile Char.isDigit
  let d2 : List Char :=
    match rest with
    | '.' :: r => r.takeWhile Char.isDigit
    | _ => []
  if d1.isEmpty && d2.isEmpty then none
  else
    let v : ℚ := mkRat (digitsToNat (d1 ++ d2)) (10 ^ d2.length)
    some (if step1.1 then -v else v)

/-- Strip every comma, modelling `String(s).replace(/,/g, '')`. -/
def removeCommas (s : String) : String := ⟨s.data.filter (fun c => c ≠ ',')⟩

/-- `toLevelNum` from the source:
`parseFloat(String(s).replace(/,/g, '') || '0')`.  An empty string after
comma stripping falls back to `'0'`; `none` is NaN. -/
def toLevelNum (s : String) : Option ℚ :=
  jsParseFloat (if truthy (removeCommas s) then removeCommas s else "0")

/-- One provider sibling record, with the fields the board uses. -/
structure CharRec where
  CharacterName : String
  CharacterClassName : String
  ServerName : String
  ItemAvgLevel : String
deriving DecidableEq

/-- The JavaScript comparison `toLevelNum(a) >= toLevelNum(b)`: any
comparison against NaN (`none`) is false. -/
def geNum (a b : Option ℚ) : Bool :=
  match a, b with
  | some x, some y => decide (y ≤ x)
  | _, _ => false

/-- The per-user representative selection from `buildBoardEmbed`:
`chars.reduce((a, b) => toLevelNum(a.ItemAvgLevel) >=
toLevelNum(b.ItemAvgLevel) ? a : b)` on the nonempty list
`c :: cs`. -/
def bestChar (c : CharRec) (cs : List CharRec) : CharRec :=
  cs.foldl
    (fun a b => if geNum (toLevelNum a.ItemAvgLevel) (toLevelNum b.ItemAvgLevel) then a else b)
    c

/-- One rendered board row: either an error row or a character row with
its memoized numeric level (`none` is NaN). -/
inductive Row where
  | errRow (userId msg : String)
  | charRow (userId name cls levelStr : String) (levelNum : Option ℚ)
deriving DecidableEq

/-- The sort key `(r.levelNum || 0)`: an error row has no `levelNum`
(undefined, falsy) and NaN is falsy, so both coerce to 0. -/
def rowKey : Row → ℚ
  | .errRow _ _ => 0
  | .charRow _ _ _ _ n => n.getD 0

/-- The row order used by `rows.sort((a, b) => (b.levelNum || 0) -
(a.levelNum || 0))`: descending by `rowKey`. -/
def rowLe (a b : Row) : Prop := rowKey b ≤ rowKey a

instance : DecidableRel rowLe := fun a b => inferInstanceAs (Decidable (rowKey b ≤ rowKey a))

instance : IsTotal Row rowLe := ⟨fun a b => le_total (rowKey b) (rowKey a)⟩

instance : IsTrans Row rowLe := ⟨fun _ _ _ h₁ h₂ => le_trans h₂ h₁⟩

/-- Model of the JavaScript stable `Array.prototype.sort` under the
descending-by-key comparator: a stable insertion sort.  For a
consistent comparator the stably sorted permutation is unique, so any
stable sort gives the array the engine produces. -/
def sortRows (rows : List Row) : List Row := List.insertionSort rowLe rows

/-- The numeric value a record contributes once levels are known to
parse (NaN replaced by 0 only for statement purposes). -/
def levelVal (c : CharRec) : ℚ := (toLevelNum c.ItemAvgLevel).getD 0

/-- A provider sibling-fetch oracle: the outcome `getSiblings(name)`
would produce (`.error` models a thrown request, `.ok` the JSON
array). -/
def SibOracle : Type := String → Except Unit (List CharRec)

/-- Build one board row for a linked user, mirroring the loop body of
`buildBoardEmbed`: a thrown fetch gives the `오류` error row, an empty
or missing array the `조회 실패` error row, otherwise the
representative sibling is selected by the NaN-sensitive reduce. -/
def mkRow (userId main : String) (res : Except Unit (List CharRec)) : Row :=
  match res with
  | .error _ => .errRow userId (main ++ ": ❌ 오류")
  | .ok [] => .errRow userId (main ++ ": ❌ 조회 실패")
  | .ok (c :: cs) =>
    let best := bestChar c cs
    .charRow userId best.CharacterName best.CharacterClassName best.ItemAvgLevel
      (toLevelNum best.ItemAvgLevel)

/-- The row-building loop of `buildBoardEmbed`: iterate the link store
in insertion order, skipping users without a truthy `main`. -/
def buildRows (links : Links) (sib : SibOracle) : List Row :=
  match links with
  | [] => []
  | (userId, inf) :: rest =>
    match inf.main with
    | none => buildRows rest sib
    | some mn =>
      if truthy mn then mkRow userId mn (sib mn) :: buildRows rest sib
      else buildRows rest sib

/-- Render one sorted row into its description line. -/
def renderRow : Row → String
  | .errRow u msg => "• **<@" ++ u ++ ">** — " ++ msg
  | .charRow u name cls levelStr _ =>
    "• **<@" ++ u ++ ">** — **" ++ name ++ "** (" ++ cls ++ ") | " ++ levelStr

/-- `buildBoardEmbed` from the source: rows for every linked user,
sorted descending by `levelNum || 0`, joined into the description, with
the marker and refresh time in the footer.  `ts` is the formatted
current time. -/
def buildBoardEmbed (links : Links) (sib : SibOracle) (ts : String) : Embed :=
  let description :=
    if links.isEmpty then "등록된 유저가 없습니다. `/link 캐릭터명`으로 등록하세요."
    else String.intercalate "\n" ((sortRows (buildRows links sib)).map renderRow)
  { description := description,
    footerText := some (BOARD_TAG ++ " 마지막 갱신: " ++ ts) }

/-- The platform world the engine acts on: the channels by id (each a
text-ness flag and its messages, newest first), the Target Registry
list, the engine account id, and a fresh-id source for sent
messages. -/
structure World where
  botId : String
  channels : List (String × Channel)
  boards : List Board
  nextId : Nat
deriving DecidableEq

/-- `client.channels.fetch(channelId)` against the world state. -/
def lookupChannel (w : World) (channelId : String) : Option Channel :=
  lookupAssoc w.channels channelId

/-- `ch.messages.fetch(messageId)`: resolve a message by id. -/
def fetchMessage (ch : Channel) (messageId : String) : Option Message :=
  ch.messages.find? (fun m => decide (m.id = messageId))

/-- Step 1 of Ensure-Or-Create: walk the registry entries of this
channel, in order, and return the first whose message still resolves
(a failed fetch falls through to the next entry). -/
def findRegistered (ch : Channel) (channelId : String) : List Board → Option Message
  | [] => none
  | b :: rest =>
    if b.channelId = channelId then
      match fetchMessage ch b.messageId with
      | some m => some m
      | none => findRegistered ch channelId rest
    else findRegistered ch channelId rest

/-- Step 2 of Ensure-Or-Create: the first message of the fetched recent
window that the engine authored and that carries the marker. -/
def findMarked (botId : String) (msgs : List Message) : Option Message :=
  msgs.find? (fun m => decide (m.authorId = botId) && hasBoardMarker m)

/-- The creation step of Ensure-Or-Create: render a fresh board embed
and send it as a new message to the channel.  The sent message gets the
next fresh id, is authored by the engine, and becomes the newest message
of the channel. -/
def sendBoard (links : Links) (sib : SibOracle) (ts : String) (w : World)
    (channelId : String) (ch : Channel) : Message × World :=
  let m : Message :=
    { id := toString w.nextId, authorId := w.botId, embeds := [buildBoardEmbed links sib ts] }
  (m, { w with channels := setAssoc w.channels channelId { ch with messages := m :: ch.messages },
               nextId := w.nextId + 1 })

/-- `ensureBoardInChannel` from the source.  Resolution order: a
registered, still-fetchable message for this channel; else a marked
engine-authored message in the recent window (`SCAN_LIMIT` newest);
else render a fresh board embed and send exactly one new message.  A
missing or non-text channel throws.  The returned world reflects the
send: the new message is prepended to the channel and the fresh-id
counter advances.  The registry is not modified (the caller registers). -/
def ensureBoardInChannel (links : Links) (sib : SibOracle) (ts : String)
    (w : World) (channelId : String) : Except String (Message × World) :=
  match lookupChannel w channelId with
  | none => .error "channel not found"
  | some ch =>
    if ch.isText then
      match findRegistered ch channelId w.boards with
      | some m => .ok (m, w)
      | none =>
        match findMarked w.botId (ch.messages.take SCAN_LIMIT) with
        | some m => .ok (m, w)
        | none => .ok (sendBoard links sib ts w channelId ch)
    else .error "이 명령은 텍스트 채널에서만 사용 가능합니다."

/-- The outcome the environment holds for one refresh item: the channel
fetch can resolve to null, the message fetch can resolve to null, the
render/edit step can throw, or everything succeeds. -/
inductive RefreshOutcome where
  | channelMissing
  | messageMissing
  | editFail
  | ok
deriving DecidableEq

/-- Specification-side predicate: did the item succeed? -/
def outcomeOk : RefreshOutcome → Bool
  | .ok => true
  | _ => false

/-- The body of the per-board `try` block in `refreshAllBoards`: a null
channel or null message is an early `continue` (no throw); a failing
render/edit throws. -/
def tryEditBoard (env : Board → RefreshOutcome) (b : Board) : Except String Bool :=
  match env b with
  | .channelMissing => .ok false
  | .messageMissing => .ok false
  | .editFail => .error "edit failed"
  | .ok => .ok true

/-- One loop iteration of `refreshAllBoards`: the `catch` clause turns
any throw from the body into a logged skip. -/
def processBoard (env : Board → RefreshOutcome) (b : Board) : Bool :=
  match tryEditBoard env b with
  | .ok r => r
  | .error _ => false

/-- `refreshAllBoards` from the source: iterate every registered board
in order, waiting between items, with the per-item try/catch; record
for each board whether its message was edited. -/
def refreshAllBoards (env : Board → RefreshOutcome) : List Board → List (Board × Bool)
  | [] => []
  | b :: rest => (b, processBoard env b) :: refreshAllBoards env rest

/-- The eligibility test of `refreshAllPersonalOnce`: the record must
have a personal target with truthy channel and message ids and a truthy
`main` (`if (!p?.channelId || !p?.messageId || !main) continue`). -/
def eligiblePersonal (inf : LinkRec) : Bool :=
  match inf.personal with
  | none => false
  | some p =>
    truthy p.channelId && truthy p.messageId &&
      (match inf.main with
       | none => false
       | some mn => truthy mn)

/-- `refreshAllPersonalOnce` from the source: iterate every link entry;
ineligible entries are skipped silently; eligible ones get the same
fetch/edit attempt with per-item try/catch, keyed here by user id. -/
def refreshAllPersonalOnce (penv : String → RefreshOutcome) :
    List (String × LinkRec) → List (String × Bool)
  | [] => []
  | (userId, inf) :: rest =>
    if eligiblePersonal inf then
      (userId,
        match penv userId with
        | .channelMissing => false
        | .messageMissing => false
        | .editFail => false
        | .ok => true) :: refreshAllPersonalOnce penv rest
    else refreshAllPersonalOnce penv rest

/-- One candidate channel of a discovery scan: its id, its type, and the
outcome of the windowed message fetch (`.error` models the thrown fetch
that the `catch { continue }` swallows). -/
structure ScanChannel where
  id : String
  isText : Bool
  fetchResult : Except Unit (List Message)

/-- The inner message loop of `discoverBoards`: for every message of the
fetched window that the engine authored and that carries the marker,
call the de-duplicating `addBoard` and increment `found` — the counter
is incremented whether or not `addBoard` actually added. -/
def scanMsgs (botId channelId : String) : List Message → Registry → Nat → Nat × Registry
  | [], reg, found => (found, reg)
  | m :: rest, reg, found =>
    if decide (m.authorId = botId) && hasBoardMarker m then
      scanMsgs botId channelId rest (addBoard reg channelId m.id) (found + 1)
    else scanMsgs botId channelId rest reg found

/-- `discoverBoards` from the source: scan every guild channel, skipping
non-text channels and channels whose window fetch throws, and run the
message loop on each fetched window; returns the accumulated `found`
counter and the updated registry. -/
def discoverBoards (botId : String) : List ScanChannel → Registry → Nat × Registry
  | [], reg => (0, reg)
  | ch :: rest, reg =>
    if ch.isText then
      match ch.fetchResult with
      | .error _ => discoverBoards botId rest reg
      | .ok msgs =>
        let fr := scanMsgs botId ch.id msgs reg 0
        let tail := discoverBoards botId rest fr.2
        (fr.1 + tail.1, tail.2)
    else discoverBoards botId rest reg

/-- The number of engine-authored, marker-carrying messages in one
window. -/
def countMarkedMsgs (botId : String) (msgs : List Message) : Nat :=
  msgs.countP (fun m => decide (m.authorId = botId) && hasBoardMarker m)

/-- The number of engine-authored, marker-carrying messages over all
scannable (text, fetchable) channels. -/
def countMarked (botId : String) : List ScanChannel → Nat
  | [] => 0
  | ch :: rest =>
    (if ch.isText then
      match ch.fetchResult with
      | .error _ => 0
      | .ok msgs => countMarkedMsgs botId msgs
     else 0) + countMarked botId rest

/-- The scheduler state: how many tick bodies are started and not yet
finished, and whether the periodic interval timer is installed
(`refreshTimer`). -/
structure SchedState where
  inflight : Nat
  timerSet : Bool
deriving DecidableEq

/-- The scheduler events of the source.  `startup` is `startAutoRefresh`
(clear any previous interval, run `tick()` immediately, install the
interval); `timerFire` is the interval invoking `tick()`; `command` is
the `/board-refresh` handler running the same pass body directly;
`finish` is a running pass completing.  None of the three trigger sites
checks whether a pass is already running. -/
inductive SchedEv where
  | startup
  | timerFire
  | command
  | finish

/-- One scheduler step. -/
def schedStep (s : SchedState) : SchedEv → SchedState
  | .startup => { inflight := s.inflight + 1, timerSet := true }
  | .timerFire => if s.timerSet then { s with inflight := s.inflight + 1 } else s
  | .command => { s with inflight := s.inflight + 1 }
  | .finish => { s with inflight := s.inflight - 1 }

/-- The scheduler run: fold the event trace from the boot state (no
pass running, no timer installed). -/
def schedRun (evs : List SchedEv) : SchedState :=
  evs.foldl schedStep ⟨0, false⟩

/-- `saveJSON` of the current engine source (part_004 and the other
try/catch variants): attempt the write and swallow any failure; `write`
is the outcome `fs.writeFileSync` would produce for the serialized
state. -/
def saveJSON (write : String → String → Except String Unit) (file obj : String) :
    Except String Unit :=
  match write file obj with
  | .ok _ => .ok ()
  | .error _ => .ok ()

/-- `saveJSON` of the early variant in `src/index.js` (and part_000):
no try/catch, so a write failure propagates to the caller. -/
def saveJSON_index (write : String → String → Except String Unit) (file obj : String) :
    Except String Unit :=
  write file obj

theorem lookupAssoc_setAssoc_self {α : Type} (l : List (String × α)) (k : String) (v : α) :
    lookupAssoc (setAssoc l k v) k = some v := by
  induction l with
  | nil => simp [setAssoc, lookupAssoc]
  | cons hd tl ih =>
    obtain ⟨k', v'⟩ := hd
    by_cases h : k' = k
    · simp [setAssoc, lookupAssoc, h]
    · simp [setAssoc, lookupAssoc, h, ih]

theorem lookupAssoc_setAssoc_ne {α : Type} (l : List (String × α)) (k k' : String) (v : α)
    (h : k ≠ k') : lookupAssoc (setAssoc l k v) k' = lookupAssoc l k' := by
  induction l with
  | nil => simp [setAssoc, lookupAssoc, h]
  | cons hd tl ih =>
    obtain ⟨k₀, v₀⟩ := hd
    by_cases h₀ : k₀ = k
    · subst h₀
      simp [setAssoc, lookupAssoc, h]
    · simp only [setAssoc, if_neg h₀, lookupAssoc]
      by_cases h₁ : k₀ = k'
      · simp [h₁]
      · simp [h₁, ih]

theorem regInv_init : regInv initRegistry := by
  constructor
  · simp [regKeys, initRegistry]
  · simp [regKeys, initRegistry]

theorem regKeys_addBoard_of_not_mem (r : Registry) (c m : String)
    (h : boardsKey c m ∉ r.boardsSet) :
    regKeys (addBoard r c m) = regKeys r ++ [boardsKey c m] := by
  simp [addBoard, h, regKeys]

theorem regInv_addBoard (r : Registry) (c m : String) (h : regInv r) :
    regInv (addBoard r c m) := by
  obtain ⟨hnd, hset⟩ := h
  by_cases hmem : boardsKey c m ∈ r.boardsSet
  · simpa [addBoard, hmem] using ⟨hnd, hset⟩
  · have hkeys := regKeys_addBoard_of_not_mem r c m hmem
    have hnotin : boardsKey c m ∉ regKeys r := by
      intro hc
      exact hmem (hset ▸ List.mem_toFinset.mpr hc)
    constructor
    · rw [hkeys]
      simpa [List.nodup_append] using ⟨hnd, hnotin⟩
    · show (addBoard r c m).boardsSet = _
      rw [hkeys]
      simp only [addBoard, if_neg hmem]
      rw [hset]
      ext x
      simp [or_comm]

theorem regInv_removeChannelBoards (r : Registry) (c : String) (h : regInv r) :
    regInv (removeChannelBoards r c) := by
  obtain ⟨hnd, _⟩ := h
  constructor
  · have hsub : (regKeys (removeChannelBoards r c)).Sublist (regKeys r) := by
      simp only [regKeys, removeChannelBoards]
      exact (List.filter_sublist r.boards).map _
    exact hnd.sublist hsub
  · rfl

theorem regInv_applyRegOp (r : Registry) (op : RegOp) (h : regInv r) :
    regInv (applyRegOp r op) := by
  cases op with
  | add c m => exact regInv_addBoard r c m h
  | removeChannel c => exact regInv_removeChannelBoards r c h

theorem regInv_applyRegOps (ops : List RegOp) (r : Registry) (h : regInv r) :
    regInv (applyRegOps ops r) := by
  induction ops generalizing r with
  | nil => simpa [applyRegOps] using h
  | cons op rest ih =>
    have : applyRegOps (op :: rest) r = applyRegOps rest (applyRegOp r op) := by
      simp [applyRegOps]
    rw [this]
    exact ih _ (regInv_applyRegOp r op h)

theorem pairs_nodup_of_keys_nodup (r : Registry) (h : (regKeys r).Nodup) :
    (r.boards.map (fun b => (b.channelId, b.messageId))).Nodup := by
  have : regKeys r =
      (r.boards.map (fun b => (b.channelId, b.messageId))).map
        (fun p => p.1 ++ ":" ++ p.2) := by
    simp [regKeys, boardsKey, List.map_map, Function.comp]
  rw [this] at h
  exact h.of_map _

/-- Claim C2: after any sequence of add operations (all callers go
through `addBoard`) and remove operations (`/board-disable`), starting
from the default empty registry, the boards list contains no two entries
with the same `(channelId, messageId)` pair, and the `boardsSet` key
index equals the set of keys of the boards list.  Stated as: every
operation preserves the invariant, and every operation sequence applied
to the initial registry satisfies it, including pair-level
duplicate-freedom. -/
theorem registry_no_duplicates :
    (∀ (r : Registry) (op : RegOp), regInv r → regInv (applyRegOp r op)) ∧
    (∀ ops : List RegOp,
      regInv (applyRegOps ops initRegistry) ∧
      ((applyRegOps ops initRegistry).boards.map
        (fun b => (b.channelId, b.messageId))).Nodup) := by
  refine ⟨regInv_applyRegOp, fun ops => ?_⟩
  have h := regInv_applyRegOps ops initRegistry regInv_init
  exact ⟨h, pairs_nodup_of_keys_nodup _ h.1⟩

/-- Witness for C2: the preservation part applied at a concrete registry
and operation. -/
theorem registry_no_duplicates_witness :
    regInv (applyRegOp initRegistry (RegOp.add "chan" "msg")) :=
  registry_no_duplicates.1 initRegistry (RegOp.add "chan" "msg") regInv_init

/-- Claim C9: for every user with a linked `main` and a previously set
`personal` target, `/unlink` clears only the `main` field of that user
record: the `personal` reference is still present afterwards, and every
other user id resolves to exactly the record it resolved to before. -/
theorem unlink_clears_only_main (links : Links) (userId : String) (cur : LinkRec)
    (mn : String) (pt : PTarget)
    (hcur : lookupAssoc links userId = some cur)
    (hmain : cur.main = some mn) (hmn : truthy mn = true)
    (hpt : cur.personal = some pt) :
    lookupAssoc (unlinkUser links userId) userId = some { cur with main := none } ∧
    (∃ rec, lookupAssoc (unlinkUser links userId) userId = some rec ∧
      rec.main = none ∧ rec.personal = some pt) ∧
    (∀ other : String, other ≠ userId →
      lookupAssoc (unlinkUser links userId) other = lookupAssoc links other) := by
  have hu : unlinkUser links userId = setAssoc links userId { cur with main := none } := by
    simp [unlinkUser, hcur, hmain, hmn]
  refine ⟨?_, ?_, ?_⟩
  · rw [hu]
    exact lookupAssoc_setAssoc_self links userId _
  · refine ⟨{ cur with main := none }, ?_, rfl, by simpa using hpt⟩
    rw [hu]
    exact lookupAssoc_setAssoc_self links userId _
  · intro other hne
    rw [hu]
    exact lookupAssoc_setAssoc_ne links userId other _ (fun h => hne h.symm)

/-- Witness for C9: a two-user store where user u1 has a main and a
personal target; unlink clears the main, keeps the personal target, and
leaves user u2 untouched. -/
theorem unlink_clears_only_main_witness :
    lookupAssoc
      (unlinkUser
        [("u1", ⟨some "Foo", some ⟨"chan", "msg"⟩⟩), ("u2", ⟨some "Bar", none⟩)] "u1")
      "u1" = some ⟨none, some ⟨"chan", "msg"⟩⟩ ∧
    (∃ rec, lookupAssoc
      (unlinkUser
        [("u1", ⟨some "Foo", some ⟨"chan", "msg"⟩⟩), ("u2", ⟨some "Bar", none⟩)] "u1")
      "u1" = some rec ∧ rec.main = none ∧ rec.personal = some ⟨"chan", "msg"⟩) ∧
    (∀ other : String, other ≠ "u1" →
      lookupAssoc
        (unlinkUser
          [("u1", ⟨some "Foo", some ⟨"chan", "msg"⟩⟩), ("u2", ⟨some "Bar", none⟩)] "u1")
        other =
      lookupAssoc [("u1", ⟨some "Foo", some ⟨"chan", "msg"⟩⟩), ("u2", ⟨some "Bar", none⟩)]
        other) :=
  unlink_clears_only_main
    [("u1", ⟨some "Foo", some ⟨"chan", "msg"⟩⟩), ("u2", ⟨some "Bar", none⟩)]
    "u1" ⟨some "Foo", some ⟨"chan", "msg"⟩⟩ "Foo" ⟨"chan", "msg"⟩
    (by rfl) (by rfl) (by decide) (by rfl)

/-- Claim C5: a second non-forced `cachedGet` for the same key within
the TTL window of a first call that fetched successfully performs no
external call, returns the stored payload, and leaves the cache
unchanged (so the two calls perform exactly one fetch: the first call's
flag is true by hypothesis, the second call's is false); and a forced
call always performs a fetch and, on success, stores `{payload, now}`
and returns the payload. -/
theorem cachedGet_ttl_and_force :
    (∀ (st st₁ : List (String × CacheEntry)) (t₁ t₂ : Nat) (url d : String)
        (f₂ : Except String String),
      cachedGet st t₁ url false (.ok d) = (.ok d, st₁, true) →
      t₂ - t₁ < TTL_MS →
      cachedGet st₁ t₂ url false f₂ = (.ok d, st₁, false)) ∧
    (∀ (st : List (String × CacheEntry)) (now : Nat) (url : String)
        (fetch : Except String String),
      (cachedGet st now url true fetch).2.2 = true ∧
      (∀ d, fetch = .ok d →
        cachedGet st now url true fetch = (.ok d, setAssoc st url ⟨d, now⟩, true))) := by
  constructor
  · intro st st₁ t₁ t₂ url d f₂ h1 httl
    have hst₁ : st₁ = setAssoc st url ⟨d, t₁⟩ := by
      unfold cachedGet at h1
      cases hl : lookupAssoc st url with
      | none =>
        rw [hl] at h1
        simp [cacheMiss] at h1
        exact h1.symm
      | some c =>
        rw [hl] at h1
        by_cases hfresh : t₁ - c.ts < TTL_MS
        · simp [hfresh] at h1
        · simp [hfresh, cacheMiss] at h1
          exact h1.symm
    subst hst₁
    unfold cachedGet
    rw [lookupAssoc_setAssoc_self]
    simp [httl]
  · intro st now url fetch
    constructor
    · unfold cachedGet
      cases hl : lookupAssoc st url with
      | none => cases fetch <;> simp [cacheMiss]
      | some c => cases fetch <;> simp [cacheMiss]
    · intro d hd
      subst hd
      unfold cachedGet
      cases hl : lookupAssoc st url with
      | none => simp [cacheMiss]
      | some c => simp [cacheMiss]

/-- Witness for C5: starting from an empty cache at time 0, the first
call fetches and the second call at time 1000 is served from the cache;
and a forced call on the same warm cache still fetches. -/
theorem cachedGet_ttl_and_force_witness :
    cachedGet [("u", ⟨"D", 0⟩)] 1000 "u" false (.error "down") =
      (.ok "D", [("u", ⟨"D", 0⟩)], false) ∧
    (cachedGet [("u", ⟨"D", 0⟩)] 1000 "u" true (.ok "D2")).2.2 = true := by
  constructor
  · exact cachedGet_ttl_and_force.1 [] [("u", ⟨"D", 0⟩)] 0 1000 "u" "D" (.error "down")
      (by rfl) (by decide)
  · exact (cachedGet_ttl_and_force.2 [("u", ⟨"D", 0⟩)] 1000 "u" (.ok "D2")).1

theorem bestChar_mem (c : CharRec) (cs : List CharRec) : bestChar c cs ∈ c :: cs := by
  induction cs generalizing c with
  | nil => simp [bestChar]
  | cons b rest ih =>
    show bestChar c (b :: rest) ∈ _
    have hstep : bestChar c (b :: rest) =
        bestChar (if geNum (toLevelNum c.ItemAvgLevel) (toLevelNum b.ItemAvgLevel)
                  then c else b) rest := by
      simp [bestChar]
    rw [hstep]
    have := ih (if geNum (toLevelNum c.ItemAvgLevel) (toLevelNum b.ItemAvgLevel) then c else b)
    rcases List.mem_cons.mp this with h | h
    · rw [h]
      by_cases hg : geNum (toLevelNum c.ItemAvgLevel) (toLevelNum b.ItemAvgLevel) = true
      · simp [hg]
      · simp only [Bool.not_eq_true] at hg
        simp [hg]
    · simp [h]

theorem bestChar_ge (c : CharRec) (cs : List CharRec)
    (h : ∀ x ∈ c :: cs, (toLevelNum x.ItemAvgLevel).isSome = true) :
    ∀ x ∈ c :: cs, levelVal x ≤ levelVal (bestChar c cs) := by
  induction cs generalizing c with
  | nil =>
    intro x hx
    simp at hx
    simp [hx, bestChar]
  | cons b rest ih =>
    have hc := h c (by simp)
    have hb := h b (by simp)
    obtain ⟨qc, hqc⟩ := Option.isSome_iff_exists.mp hc
    obtain ⟨qb, hqb⟩ := Option.isSome_iff_exists.mp hb
    set c' := if geNum (toLevelNum c.ItemAvgLevel) (toLevelNum b.ItemAvgLevel) then c else b
      with hc'
    have hstep : bestChar c (b :: rest) = bestChar c' rest := by
      simp [bestChar, hc']
    have hmemc' : c' = c ∨ c' = b := by
      by_cases hg : geNum (toLevelNum c.ItemAvgLevel) (toLevelNum b.ItemAvgLevel) = true
      · left; simp [hc', hg]
      · right
        simp only [Bool.not_eq_true] at hg
        simp [hc', hg]
    have hall : ∀ x ∈ c' :: rest, (toLevelNum x.ItemAvgLevel).isSome = true := by
      intro x hx
      rcases List.mem_cons.mp hx with hx | hx
      · rcases hmemc' with h' | h' <;> (subst hx; rw [h']) <;> [exact hc; exact hb]
      · exact h x (by simp [hx])
    have hboth : levelVal c ≤ levelVal c' ∧ levelVal b ≤ levelVal c' := by
      by_cases hg : geNum (toLevelNum c.ItemAvgLevel) (toLevelNum b.ItemAvgLevel) = true
      · have : levelVal b ≤ levelVal c := by
          unfold geNum at hg
          rw [hqc, hqb] at hg
          simp [levelVal, hqc, hqb]
          exact of_decide_eq_true hg
        constructor
        · simp [hc', hg]
        · simpa [hc', hg] using this
      · simp only [Bool.not_eq_true] at hg
        have : levelVal c ≤ levelVal b := by
          unfold geNum at hg
          rw [hqc, hqb] at hg
          simp [levelVal, hqc, hqb]
          exact le_of_not_le (of_decide_eq_false hg)
        constructor
        · simpa [hc', hg] using this
        · simp [hc', hg]
    have hrest := ih c' hall
    rw [hstep]
    intro x hx
    rcases List.mem_cons.mp hx with hx | hx
    · subst hx
      exact le_trans hboth.1 (hrest c' (by simp))
    · rcases List.mem_cons.mp hx with hx | hx
      · subst hx
        exact le_trans hboth.2 (hrest c' (by simp))
      · exact hrest x (by simp [hx])

/-- Counterexample for C4: with sibling level strings "1,630.00",
"1,600.83", "abc" (in that order), the reduce in `buildBoardEmbed`
selects the "abc" record, not the "1,630.00" one: `parseFloat("abc")` is
NaN, every `>=` comparison against NaN is false, so the ternary picks
the NaN-levelled right operand.  A non-parseable level therefore does
not compare as zero in representative selection. -/
theorem bestChar_nan_poisoning :
    bestChar ⟨"A", "ClsA", "Srv", "1,630.00"⟩
      [⟨"B", "ClsB", "Srv", "1,600.83"⟩, ⟨"C", "ClsC", "Srv", "abc"⟩] =
      ⟨"C", "ClsC", "Srv", "abc"⟩ ∧
    (⟨"C", "ClsC", "Srv", "abc"⟩ : CharRec) ≠ ⟨"A", "ClsA", "Srv", "1,630.00"⟩ ∧
    toLevelNum "abc" = none := by
  refine ⟨by decide, by decide, by decide⟩

/-- Claim C4 (amended): when every sibling level string parses, the
representative chosen per user is a sibling of numerically-greatest
parsed level (thousands separators removed before parsing); but a
non-parseable level is NaN, not zero, and poisons the reduce, which then
selects the last non-parseable sibling — for levels "1,630.00",
"1,600.83", "abc" the representative is the "abc" record.  Rendered
rows are ordered by levelNum-or-zero descending (stable), so the "abc"
row, whose key is 0, is placed last. -/
theorem board_ranking_amended :
    (∀ (c : CharRec) (cs : List CharRec),
      (∀ x ∈ c :: cs, (toLevelNum x.ItemAvgLevel).isSome = true) →
      bestChar c cs ∈ c :: cs ∧
      ∀ x ∈ c :: cs, levelVal x ≤ levelVal (bestChar c cs)) ∧
    (∀ rows : List Row,
      List.Perm (sortRows rows) rows ∧
      (sortRows rows).Pairwise (fun a b => rowKey b ≤ rowKey a)) ∧
    bestChar ⟨"A", "ClsA", "Srv", "1,630.00"⟩
      [⟨"B", "ClsB", "Srv", "1,600.83"⟩, ⟨"C", "ClsC", "Srv", "abc"⟩] =
      ⟨"C", "ClsC", "Srv", "abc"⟩ ∧
    sortRows
      [Row.charRow "u1" "A" "ClsA" "1,630.00" (toLevelNum "1,630.00"),
       Row.charRow "u3" "C" "ClsC" "abc" (toLevelNum "abc"),
       Row.charRow "u2" "B" "ClsB" "1,600.83" (toLevelNum "1,600.83")] =
      [Row.charRow "u1" "A" "ClsA" "1,630.00" (toLevelNum "1,630.00"),
       Row.charRow "u2" "B" "ClsB" "1,600.83" (toLevelNum "1,600.83"),
       Row.charRow "u3" "C" "ClsC" "abc" (toLevelNum "abc")] := by
  refine ⟨fun c cs h => ⟨bestChar_mem c cs, bestChar_ge c cs h⟩, fun rows => ?_, by decide,
    by decide⟩
  refine ⟨List.perm_insertionSort rowLe rows, ?_⟩
  have h := List.sorted_insertionSort rowLe rows
  exact h

/-- Witness for C4 (amended): instantiating the all-parse clause on two
concrete parseable siblings shows the representative is the
higher-levelled one. -/
theorem board_ranking_amended_witness :
    bestChar ⟨"A", "ClsA", "Srv", "1,630.00"⟩ [⟨"B", "ClsB", "Srv", "1,600.83"⟩] ∈
      ([⟨"A", "ClsA", "Srv", "1,630.00"⟩, ⟨"B", "ClsB", "Srv", "1,600.83"⟩] :
        List CharRec) ∧
    ∀ x ∈ ([⟨"A", "ClsA", "Srv", "1,630.00"⟩, ⟨"B", "ClsB", "Srv", "1,600.83"⟩] :
        List CharRec),
      levelVal x ≤
        levelVal (bestChar ⟨"A", "ClsA", "Srv", "1,630.00"⟩
          [⟨"B", "ClsB", "Srv", "1,600.83"⟩]) :=
  board_ranking_amended.1 ⟨"A", "ClsA", "Srv", "1,630.00"⟩
    [⟨"B", "ClsB", "Srv", "1,600.83"⟩] (by decide)

theorem startsWith_append_self (l t : List Char) : startsWith l (l ++ t) = true := by
  induction l with
  | nil => rfl
  | cons c cs ih => simp [startsWith, ih]

theorem subListSearch_of_startsWith (pat l : List Char) (h : startsWith pat l = true) :
    subListSearch pat l = true := by
  cases l with
  | nil => simpa [subListSearch] using h
  | cons x xs => simp [subListSearch, h]

theorem jsIncludes_append_left (pre post : String) :
    jsIncludes (pre ++ post) pre = true := by
  show subListSearch pre.data (pre ++ post).data = true
  rw [String.data_append]
  exact subListSearch_of_startsWith _ _ (startsWith_append_self pre.data post.data)

theorem truthy_board_footer (s : String) : truthy (BOARD_TAG ++ s) = true := by
  show (!(BOARD_TAG ++ s).data.isEmpty) = true
  rw [String.data_append]
  rfl

theorem hasBoardMarker_sent (links : Links) (sib : SibOracle) (ts : String)
    (mid botId : String) :
    hasBoardMarker
      { id := mid, authorId := botId, embeds := [buildBoardEmbed links sib ts] } = true := by
  show hasBoardMarker _ = true
  simp only [hasBoardMarker, buildBoardEmbed, List.head?]
  have h1 : truthy (BOARD_TAG ++ (" 마지막 갱신: " ++ ts)) = true := truthy_board_footer _
  have h2 : jsIncludes (BOARD_TAG ++ (" 마지막 갱신: " ++ ts)) BOARD_TAG = true :=
    jsIncludes_append_left _ _
  rw [← String.append_assoc] at h1 h2
  simp [h1, h2]

theorem fetchMessage_prepend (ch : Channel) (m : Message) (mid : String) :
    fetchMessage { ch with messages := m :: ch.messages } mid =
      if m.id = mid then some m else fetchMessage ch mid := by
  simp only [fetchMessage]
  by_cases hid : m.id = mid
  · rw [if_pos hid]
    exact List.find?_cons_of_pos _ (by simp [hid])
  · rw [if_neg hid]
    exact List.find?_cons_of_neg _ (by simp [hid])

theorem findRegistered_prepend (ch : Channel) (channelId : String) (m : Message)
    (bs : List Board) (h : findRegistered ch channelId bs = none) :
    findRegistered { ch with messages := m :: ch.messages } channelId bs = none ∨
    findRegistered { ch with messages := m :: ch.messages } channelId bs = some m := by
  induction bs with
  | nil => left; rfl
  | cons b rest ih =>
    by_cases hc : b.channelId = channelId
    · simp only [findRegistered, if_pos hc] at h ⊢
      cases hf : fetchMessage ch b.messageId with
      | some m₀ => rw [hf] at h; exact absurd h (by simp)
      | none =>
        rw [hf] at h
        rw [fetchMessage_prepend]
        by_cases hid : m.id = b.messageId
        · rw [if_pos hid]
          right
          rfl
        · rw [if_neg hid, hf]
          exact ih h
    · simp only [findRegistered, if_neg hc] at h ⊢
      exact ih h

/-- Claim C1: Ensure-Or-Create is idempotent.  If a call resolves (the
channel exists and is a text channel) and produces the message `m` and
world `w'`, then a second call on `w'` — no deletion, no other change in
between — resolves to the very same message identity and leaves the
world untouched: no second managed message is ever created.  Resolution
inside the call follows the source order: registry entry, marked recent
window message, create. -/
theorem ensureBoardInChannel_idempotent (links : Links) (sib : SibOracle) (ts : String)
    (w : World) (channelId : String) (m : Message) (w' : World)
    (h : ensureBoardInChannel links sib ts w channelId = .ok (m, w')) :
    ensureBoardInChannel links sib ts w' channelId = .ok (m, w') := by
  unfold ensureBoardInChannel at h
  cases hch : lookupChannel w channelId with
  | none =>
    rw [hch] at h
    exact absurd h (by simp)
  | some ch =>
    rw [hch] at h
    simp only at h
    cases htext : ch.isText with
    | false =>
      rw [htext] at h
      exact absurd h (by simp)
    | true =>
      rw [htext] at h
      simp only [if_true] at h
      cases hfr : findRegistered ch channelId w.boards with
      | some m₀ =>
        rw [hfr] at h
        simp only [Except.ok.injEq, Prod.mk.injEq] at h
        obtain ⟨hm₀, hw⟩ := h
        subst hm₀
        subst hw
        unfold ensureBoardInChannel
        rw [hch]
        simp only
        rw [htext]
        simp only [if_true]
        rw [hfr]
      | none =>
        rw [hfr] at h
        cases hfm : findMarked w.botId (ch.messages.take SCAN_LIMIT) with
        | some m₁ =>
          rw [hfm] at h
          simp only [Except.ok.injEq, Prod.mk.injEq] at h
          obtain ⟨hm₁, hw⟩ := h
          subst hm₁
          subst hw
          unfold ensureBoardInChannel
          rw [hch]
          simp only
          rw [htext]
          simp only [if_true]
          rw [hfr, hfm]
        | none =>
          rw [hfm] at h
          simp only [Except.ok.injEq] at h
          have hm₁ : (sendBoard links sib ts w channelId ch).1 = m := congrArg Prod.fst h
          have hw₁ : (sendBoard links sib ts w channelId ch).2 = w' := congrArg Prod.snd h
          have hmdef : m = ⟨toString w.nextId, w.botId, [buildBoardEmbed links sib ts]⟩ := by
            rw [← hm₁]
            rfl
          have hwdef : w' =
              ⟨w.botId, setAssoc w.channels channelId ⟨ch.isText, m :: ch.messages⟩,
               w.boards, w.nextId + 1⟩ := by
            rw [← hw₁, ← hm₁]
            rfl
          have hlook : lookupChannel w' channelId = some ⟨ch.isText, m :: ch.messages⟩ := by
            rw [hwdef]
            show lookupAssoc (setAssoc w.channels channelId _) channelId = _
            exact lookupAssoc_setAssoc_self _ _ _
          unfold ensureBoardInChannel
          rw [hlook]
          simp only
          rw [htext]
          simp only [if_true]
          have hboards : w'.boards = w.boards := by rw [hwdef]
          rw [hboards]
          have hbot : w'.botId = w.botId := by rw [hwdef]
          have hpred : (decide (m.authorId = w.botId) && hasBoardMarker m) = true := by
            rw [hmdef]
            simp [hasBoardMarker_sent]
          rcases findRegistered_prepend ch channelId m w.boards hfr with hnone | hsome
          · rw [htext] at hnone
            rw [hnone]
            have hfind : findMarked w'.botId (List.take SCAN_LIMIT (m :: ch.messages)) =
                some m := by
              rw [hbot]
              show findMarked w.botId (m :: List.take 49 ch.messages) = some m
              simp only [findMarked, List.find?_cons, hpred]
            rw [hfind]
          · rw [htext] at hsome
            rw [hsome]

/-- Witness for C1: a world with one empty text channel.  The first call
creates the board message; the theorem applied to that call shows the
second call returns the same message and the same world. -/
theorem ensureBoardInChannel_idempotent_witness :
    ensureBoardInChannel [] (fun _ => .ok []) "t"
      ((sendBoard [] (fun _ => .ok []) "t"
        ⟨"bot", [("c", ⟨true, []⟩)], [], 0⟩ "c" ⟨true, []⟩).2) "c" =
    .ok (sendBoard [] (fun _ => .ok []) "t"
      ⟨"bot", [("c", ⟨true, []⟩)], [], 0⟩ "c" ⟨true, []⟩) :=
  ensureBoardInChannel_idempotent [] (fun _ => .ok []) "t"
    ⟨"bot", [("c", ⟨true, []⟩)], [], 0⟩ "c"
    (sendBoard [] (fun _ => .ok []) "t" ⟨"bot", [("c", ⟨true, []⟩)], [], 0⟩ "c" ⟨true, []⟩).1
    (sendBoard [] (fun _ => .ok []) "t" ⟨"bot", [("c", ⟨true, []⟩)], [], 0⟩ "c" ⟨true, []⟩).2
    (by rfl)

theorem processBoard_eq_outcomeOk (env : Board → RefreshOutcome) (b : Board) :
    processBoard env b = outcomeOk (env b) := by
  cases h : env b <;> simp [processBoard, tryEditBoard, outcomeOk, h]

/-- Claim C6: a refresh tick processes every registered target and every
eligible personal target; each item's success depends only on its own
outcome — a failing channel fetch, message fetch, or render/edit on one
item never aborts the pass, and items after a failing one are still
updated. -/
theorem refresh_failure_isolation :
    (∀ (env : Board → RefreshOutcome) (boards : List Board),
      refreshAllBoards env boards = boards.map (fun b => (b, outcomeOk (env b)))) ∧
    (∀ (env : Board → RefreshOutcome) (boards : List Board),
      (refreshAllBoards env boards).length = boards.length) ∧
    (∀ (env : Board → RefreshOutcome) (boards : List Board) (b : Board),
      b ∈ boards → env b = RefreshOutcome.ok → (b, true) ∈ refreshAllBoards env boards) ∧
    (∀ (penv : String → RefreshOutcome) (links : List (String × LinkRec)),
      refreshAllPersonalOnce penv links =
        (links.filter (fun x => eligiblePersonal x.2)).map
          (fun x => (x.1, outcomeOk (penv x.1)))) := by
  have hboards : ∀ (env : Board → RefreshOutcome) (boards : List Board),
      refreshAllBoards env boards = boards.map (fun b => (b, outcomeOk (env b))) := by
    intro env boards
    induction boards with
    | nil => rfl
    | cons b rest ih => simp [refreshAllBoards, processBoard_eq_outcomeOk, ih]
  refine ⟨hboards, ?_, ?_, ?_⟩
  · intro env boards
    rw [hboards]
    simp
  · intro env boards b hb hok
    rw [hboards]
    refine List.mem_map.mpr ⟨b, hb, ?_⟩
    simp [hok, outcomeOk]
  · intro penv links
    induction links with
    | nil => rfl
    | cons x rest ih =>
      obtain ⟨userId, inf⟩ := x
      by_cases he : eligiblePersonal inf = true
      · have harm : (match penv userId with
            | RefreshOutcome.channelMissing => false
            | RefreshOutcome.messageMissing => false
            | RefreshOutcome.editFail => false
            | RefreshOutcome.ok => true) = outcomeOk (penv userId) := by
          cases penv userId <;> rfl
        simp [refreshAllPersonalOnce, he, List.filter_cons, harm, ih]
      · simp only [Bool.not_eq_true] at he
        simp [refreshAllPersonalOnce, he, List.filter_cons, ih]

/-- Witness for C6: with the first of two boards failing at its edit
step, the second board is still processed and updated. -/
theorem refresh_failure_isolation_witness :
    ((⟨"c2", "m2"⟩ : Board), true) ∈
      refreshAllBoards
        (fun b => if b.channelId = "c1" then RefreshOutcome.editFail else RefreshOutcome.ok)
        [⟨"c1", "m1"⟩, ⟨"c2", "m2"⟩] :=
  refresh_failure_isolation.2.2.1
    (fun b => if b.channelId = "c1" then RefreshOutcome.editFail else RefreshOutcome.ok)
    [⟨"c1", "m1"⟩, ⟨"c2", "m2"⟩] ⟨"c2", "m2"⟩ (by decide) (by decide)

theorem scanMsgs_count (botId channelId : String) (msgs : List Message) :
    ∀ (reg : Registry) (found : Nat),
      (scanMsgs botId channelId msgs reg found).1 = found + countMarkedMsgs botId msgs := by
  induction msgs with
  | nil => intro reg found; simp [scanMsgs, countMarkedMsgs]
  | cons m rest ih =>
    intro reg found
    by_cases hp : (decide (m.authorId = botId) && hasBoardMarker m) = true
    · rw [scanMsgs, if_pos hp, ih]
      have h3 : countMarkedMsgs botId (m :: rest) = countMarkedMsgs botId rest + 1 := by
        simp [countMarkedMsgs, List.countP_cons, hp]
      rw [h3]
      omega
    · simp only [Bool.not_eq_true] at hp
      rw [scanMsgs, if_neg (by simp [hp]), ih]
      have h3 : countMarkedMsgs botId (m :: rest) = countMarkedMsgs botId rest := by
        simp [countMarkedMsgs, List.countP_cons, hp]
      rw [h3]

theorem addBoard_length (reg : Registry) (c m : String) :
    (addBoard reg c m).boards.length ≤ reg.boards.length + 1 := by
  by_cases h : boardsKey c m ∈ reg.boardsSet
  · simp [addBoard, h]
  · simp [addBoard, h]

theorem scanMsgs_length (botId channelId : String) (msgs : List Message) :
    ∀ (reg : Registry) (found : Nat),
      (scanMsgs botId channelId msgs reg found).2.boards.length ≤
        reg.boards.length + countMarkedMsgs botId msgs := by
  induction msgs with
  | nil => intro reg found; simp [scanMsgs, countMarkedMsgs]
  | cons m rest ih =>
    intro reg found
    by_cases hp : (decide (m.authorId = botId) && hasBoardMarker m) = true
    · rw [scanMsgs, if_pos hp]
      have h1 := ih (addBoard reg channelId m.id) (found + 1)
      have h2 := addBoard_length reg channelId m.id
      have h3 : countMarkedMsgs botId (m :: rest) = countMarkedMsgs botId rest + 1 := by
        simp [countMarkedMsgs, List.countP_cons, hp]
      rw [h3]
      omega
    · simp only [Bool.not_eq_true] at hp
      rw [scanMsgs, if_neg (by simp [hp])]
      have h1 := ih reg found
      have h3 : countMarkedMsgs botId (m :: rest) = countMarkedMsgs botId rest := by
        simp [countMarkedMsgs, List.countP_cons, hp]
      rw [h3]
      omega

/-- Counterexample for C7: a registry that already holds ("c", "m"), and
a scan of one text channel whose window holds exactly that marked,
engine-authored message.  `discoverBoards` returns 1 — the `found`
counter is incremented for every marked message seen — while the
registry is unchanged, so the number of newly added targets is 0, not
the returned 1. -/
theorem discoverBoards_count_not_newly_added :
    (discoverBoards "bot"
      [⟨"c", true, .ok [⟨"m", "bot", [⟨"", some "[LOA_BOARD] x"⟩]⟩]⟩]
      ⟨[⟨"c", "m"⟩], {boardsKey "c" "m"}⟩).1 = 1 ∧
    (discoverBoards "bot"
      [⟨"c", true, .ok [⟨"m", "bot", [⟨"", some "[LOA_BOARD] x"⟩]⟩]⟩]
      ⟨[⟨"c", "m"⟩], {boardsKey "c" "m"}⟩).2 = ⟨[⟨"c", "m"⟩], {boardsKey "c" "m"}⟩ := by
  constructor
  · rfl
  · rfl

/-- Claim C7 (amended): `discoverBoards` returns the number of marked,
engine-authored messages encountered across scannable text channels — a
count that includes messages whose (channelId, messageId) was already
registered, so it is an upper bound on, not equal to, the number of
newly added targets. -/
theorem discoverBoards_count_amended (botId : String) (chans : List ScanChannel) :
    ∀ reg : Registry,
      (discoverBoards botId chans reg).1 = countMarked botId chans ∧
      (discoverBoards botId chans reg).2.boards.length ≤
        reg.boards.length + (discoverBoards botId chans reg).1 := by
  induction chans with
  | nil => intro reg; simp [discoverBoards, countMarked]
  | cons ch rest ih =>
    intro reg
    by_cases ht : ch.isText = true
    · cases hf : ch.fetchResult with
      | error e =>
        have h := ih reg
        constructor
        · rw [discoverBoards, if_pos ht, hf]
          simp [countMarked, ht, hf, h.1]
        · rw [discoverBoards, if_pos ht, hf]
          exact h.2
      | ok msgs =>
        have hscan1 := scanMsgs_count botId ch.id msgs reg 0
        have hscan2 := scanMsgs_length botId ch.id msgs reg 0
        have hrest := ih (scanMsgs botId ch.id msgs reg 0).2
        constructor
        · rw [discoverBoards, if_pos ht, hf]
          simp only [countMarked, ht, if_true, hf]
          rw [hrest.1] at *
          simp only [hscan1]
          omega
        · rw [discoverBoards, if_pos ht, hf]
          simp only
          have := hrest.2
          simp only [hrest.1, hscan1] at *
          omega
    · simp only [Bool.not_eq_true] at ht
      have h := ih reg
      constructor
      · rw [discoverBoards, if_neg (by simp [ht])]
        simp [countMarked, ht, h.1]
      · rw [discoverBoards, if_neg (by simp [ht])]
        exact h.2

/-- Counterexample for C3: the claim says a tick request while one is in
progress is a no-op that never starts a second concurrently-running
tick, i.e. the number of in-flight passes never exceeds one.  But no
trigger site checks for a running pass: the trace "startup run, then
/board-refresh before the first pass finishes" reaches two in-flight
passes. -/
theorem tick_overlap_reachable :
    (schedRun [SchedEv.startup, SchedEv.command]).inflight = 2 ∧
    ¬ (∀ evs : List SchedEv, (schedRun evs).inflight ≤ 1) := by
  constructor
  · rfl
  · intro h
    exact absurd (h [SchedEv.startup, SchedEv.command]) (by decide)

/-- Claim C3 (amended): tick requests are not serialized.  Every trigger
— the startup run, an installed-timer fire, and the `/board-refresh`
command — unconditionally starts another pass (in-flight count +1), so
two concurrently running passes are reachable; the only single-instance
resource is the interval timer itself, which `startAutoRefresh` clears
and reinstalls. -/
theorem tick_requests_not_noops :
    (∀ s : SchedState, (schedStep s SchedEv.command).inflight = s.inflight + 1) ∧
    (∀ s : SchedState, (schedStep s SchedEv.startup).inflight = s.inflight + 1 ∧
      (schedStep s SchedEv.startup).timerSet = true) ∧
    (∀ s : SchedState, s.timerSet = true →
      (schedStep s SchedEv.timerFire).inflight = s.inflight + 1) ∧
    (schedRun [SchedEv.startup, SchedEv.command]).inflight = 2 := by
  refine ⟨fun s => rfl, fun s => ⟨rfl, rfl⟩, fun s h => ?_, rfl⟩
  simp [schedStep, h]

/-- Witness for C3 (amended): the timer-fire clause instantiated at a
state with an installed timer and one running pass. -/
theorem tick_requests_not_noops_witness :
    (schedStep ⟨1, true⟩ SchedEv.timerFire).inflight = 1 + 1 :=
  tick_requests_not_noops.2.2.1 ⟨1, true⟩ (by rfl)

/-- Counterexample for C8: the `saveJSON` variant of `src/index.js` has
no try/catch, so on read-only storage the write failure propagates to
the caller instead of being swallowed. -/
theorem saveJSON_index_raises :
    saveJSON_index (fun _ _ => .error "EROFS: read-only file system") "links.json" "[]" =
      .error "EROFS: read-only file system" ∧
    saveJSON_index (fun _ _ => .error "EROFS: read-only file system") "links.json" "[]" ≠
      .ok () := by
  constructor
  · rfl
  · exact fun hc => Except.noConfusion hc

/-- Claim C8 (amended): the engine's `saveJSON` (part_004 and the other
try/catch variants) returns normally for every state value and every
write outcome, swallowing any persistence failure; but the early
`src/index.js` variant propagates every write failure to its caller. -/
theorem saveJSON_never_raises_amended :
    (∀ (write : String → String → Except String Unit) (file obj : String),
      saveJSON write file obj = .ok ()) ∧
    (∀ (write : String → String → Except String Unit) (file obj e : String),
      write file obj = .error e → saveJSON_index write file obj = .error e) := by
  constructor
  · intro write file obj
    unfold saveJSON
    cases write file obj <;> rfl
  · intro write file obj e h
    simpa [saveJSON_index] using h

/-- Witness for C8 (amended): the swallowing clause at a concrete failing
write, and the propagation clause at the same write. -/
theorem saveJSON_never_raises_amended_witness :
    saveJSON (fun _ _ => .error "EROFS") "links.json" "[]" = .ok () ∧
    saveJSON_index (fun _ _ => .error "EROFS") "links.json" "[]" = .error "EROFS" :=
  ⟨saveJSON_never_raises_amended.1 (fun _ _ => .error "EROFS") "links.json" "[]",
   saveJSON_never_raises_amended.2 (fun _ _ => .error "EROFS") "links.json" "[]" "EROFS"
     (by rfl)⟩

/-- Claim C10: `hasBoardMarker` is true exactly when the first embed has
a footer text containing the literal marker; a marker only in a later
embed is not recognized, so such a message is neither picked up by the
Ensure-Or-Create window scan (`findMarked`) nor registered or counted by
the discovery message loop (`scanMsgs`). -/
theorem hasBoardMarker_first_embed_only :
    (∀ m : Message, hasBoardMarker m = true ↔
      ∃ e t, m.embeds.head? = some e ∧ e.footerText = some t ∧
        jsIncludes t BOARD_TAG = true) ∧
    hasBoardMarker ⟨"m2", "bot", [⟨"plain", none⟩, ⟨"x", some "[LOA_BOARD] hidden"⟩]⟩ =
      false ∧
    findMarked "bot" [⟨"m2", "bot", [⟨"plain", none⟩, ⟨"x", some "[LOA_BOARD] hidden"⟩]⟩] =
      none ∧
    scanMsgs "bot" "c" [⟨"m2", "bot", [⟨"plain", none⟩, ⟨"x", some "[LOA_BOARD] hidden"⟩]⟩]
      initRegistry 0 = (0, initRegistry) := by
  refine ⟨?_, by rfl, by rfl, by rfl⟩
  intro m
  constructor
  · intro h
    cases hemb : m.embeds with
    | nil => rw [hasBoardMarker, hemb] at h; exact absurd h (by simp)
    | cons e rest =>
      rw [hasBoardMarker, hemb] at h
      simp only [List.head?] at h
      cases hft : e.footerText with
      | none => rw [hft] at h; exact absurd h (by simp)
      | some t =>
        rw [hft] at h
        simp only [Bool.and_eq_true] at h
        exact ⟨e, t, rfl, hft, h.2⟩
  · rintro ⟨e, t, he, ht, hinc⟩
    have htruthy : truthy t = true := by
      cases hd : t.data with
      | nil =>
        have hfalse : jsIncludes t BOARD_TAG = false := by
          simp only [jsIncludes, hd]
          decide
        rw [hfalse] at hinc
        exact absurd hinc (by simp)
      | cons c cs => simp [truthy, hd]
    cases hemb : m.embeds with
    | nil => rw [hemb] at he; exact absurd he (by simp)
    | cons e0 rest =>
      rw [hemb] at he
      simp only [List.head?, Option.some.injEq] at he
      subst he
      rw [hasBoardMarker, hemb]
      simp only [List.head?, ht]
      simp [htruthy, hinc]

end LoaBot
